import Mathlib

/-!  Verification of the ChessByDQK engine core (ChessEngine.py, SmartMoveFinder.py).

Shallow-embedding conventions:
* the 8×8 numpy board becomes a `List (List Nat)` in row-major order; 0 is an
  empty square, `10*color + pieceType` with color 1 = white, 2 = black and
  piece type 1..6 = pawn, knight, bishop, rook, queen, king;
* Python list indexing with a negative index in [-8, -1] wraps to the end of
  the row (`board[-1]` is the last entry), which `pyIdx` reproduces; indices
  outside [-8, 8) raise IndexError in Python and are mapped to a harmless
  default here (such accesses are unreachable in all the theorems below);
* the mutable `GameState` object is passed as an explicit value, so the
  in-place `makeMove` / `undoMove` mutations become functions on states;
* the Python dict `positionCounts` is an insertion-ordered association list;
  `hash((boardTuple, whiteToMove))` (GameState.getBoardHash) is embedded as
  the pair itself, and `hash(str(gs.board))` (the transposition-table key of
  SmartMoveFinder.findMoveNegaMaxAlphaBeta) as the board itself — both are
  injective stand-ins for the CPython hash value.
-/

namespace ChessByDQK

/-- Python index semantics on a length-8 list: indices in [-8, 0) wrap. -/
def pyIdx (i : Int) : Option Nat :=
  if 0 ≤ i ∧ i < 8 then some i.toNat
  else if -8 ≤ i ∧ i < 0 then some (i + 8).toNat
  else none

abbrev Board := List (List Nat)

/-- Read `board[r][c]` with Python index semantics (0 for the unreachable
IndexError case). -/
def getCell (b : Board) (r c : Int) : Nat :=
  match pyIdx r, pyIdx c with
  | some i, some j => (b.getD i []).getD j 0
  | _, _ => 0

/-- Write `board[r][c] = v` with Python index semantics (no-op for the unreachable
IndexError case). -/
def setCell (b : Board) (r c : Int) (v : Nat) : Board :=
  match pyIdx r, pyIdx c with
  | some i, some j => b.set i ((b.getD i []).set j v)
  | _, _ => b

/-- The board is an 8×8 grid, as every board built by the engine is. -/
def Wf (b : Board) : Prop := b.length = 8 ∧ ∀ row ∈ b, row.length = 8

instance (b : Board) : Decidable (Wf b) := by unfold Wf; infer_instance

/-- ChessEngine.CastleRight. -/
structure CastleRight where
  wks : Bool
  bks : Bool
  wqs : Bool
  bqs : Bool
deriving DecidableEq

/-- ChessEngine.Move: all attributes set by Move.__init__. -/
structure Move where
  startRow : Int
  startCol : Int
  endRow : Int
  endCol : Int
  pieceMoved : Nat
  pieceCaptured : Nat
  moveID : Int
  isPawnPromotion : Bool
  promotionChoice : Option Nat
  isEnPassantMove : Bool
  isCastleMove : Bool
deriving DecidableEq

/-- Move.__init__(startSquare, endSquare, board, isEnPassantMove, isCastleMove,
promotionChoice).  The keyword defaults of the source are passed explicitly by
every caller below. -/
def Move.mk' (startSq endSq : Int × Int) (board : Board)
    (isEnPassantMove isCastleMove : Bool) (promotionChoice : Option Nat) : Move :=
  let startRow := startSq.1
  let startCol := startSq.2
  let endRow := endSq.1
  let endCol := endSq.2
  let pieceMoved := getCell board startRow startCol
  let isPawnPromotion : Bool :=
    (pieceMoved == 11 && endRow == 0) || (pieceMoved == 21 && endRow == 7)
  let pieceCaptured :=
    if isEnPassantMove then (if pieceMoved = 21 then 11 else 21)
    else getCell board endRow endCol
  { startRow := startRow, startCol := startCol, endRow := endRow, endCol := endCol,
    pieceMoved := pieceMoved, pieceCaptured := pieceCaptured,
    moveID := startRow * 1000 + startCol * 100 + endRow * 10 + endCol,
    isPawnPromotion := isPawnPromotion, promotionChoice := promotionChoice,
    isEnPassantMove := isEnPassantMove, isCastleMove := isCastleMove }

/-- Move.__eq__: two moves are equal exactly when their moveIDs coincide. -/
def Move.pyEq (m other : Move) : Bool := m.moveID == other.moveID

/-- Fingerprint of GameState.getBoardHash: hash((boardTuple, whiteToMove)),
embedded injectively as the pair itself. -/
abbrev PosKey := Board × Bool

/-- ChessEngine.GameState.  `moveFunctions` (a dict of bound methods) is
realised by the dispatch in `pieceMovesAt` below. -/
structure GameState where
  board : Board
  whiteToMove : Bool
  moveLog : List (Move × Nat)
  whiteKingLocation : Int × Int
  blackKingLocation : Int × Int
  checkMate : Bool
  draw : Bool
  enPassantPossible : Option (Int × Int)
  currentCastlingRight : CastleRight
  castleRightsLog : List CastleRight
  enPassantPossibleLog : List (Option (Int × Int))
  simulation : Bool
  positionCounts : List (PosKey × Int)
  fiftyMoveCounter : Nat
deriving DecidableEq

def getBoardHash (gs : GameState) : PosKey := (gs.board, gs.whiteToMove)

def initBoard : Board :=
  [[24, 22, 23, 25, 26, 23, 22, 24],
   [21, 21, 21, 21, 21, 21, 21, 21],
   [ 0,  0,  0,  0,  0,  0,  0,  0],
   [ 0,  0,  0,  0,  0,  0,  0,  0],
   [ 0,  0,  0,  0,  0,  0,  0,  0],
   [ 0,  0,  0,  0,  0,  0,  0,  0],
   [11, 11, 11, 11, 11, 11, 11, 11],
   [14, 12, 13, 15, 16, 13, 12, 14]]

/-- GameState.__init__. -/
def initGameState : GameState :=
  { board := initBoard, whiteToMove := true, moveLog := [],
    whiteKingLocation := (7, 4), blackKingLocation := (0, 4),
    checkMate := false, draw := false, enPassantPossible := none,
    currentCastlingRight := CastleRight.mk true true true true,
    castleRightsLog := [CastleRight.mk true true true true],
    enPassantPossibleLog := [none], simulation := false,
    positionCounts := [((initBoard, true), 1)], fiftyMoveCounter := 0 }

/-- Read of `positionCounts`: first matching key of the association list. -/
def pcGet : List (PosKey × Int) → PosKey → Option Int
  | [], _ => none
  | (k, v) :: rest, key => if k = key then some v else pcGet rest key

/-- Increment `positionCounts[key]` when present, else insert it at 1
(Python dicts append fresh keys at the end). -/
def pcIncr : List (PosKey × Int) → PosKey → List (PosKey × Int)
  | [], key => [(key, 1)]
  | (k, v) :: rest, key =>
    if k = key then (k, v + 1) :: rest else (k, v) :: pcIncr rest key

/-- When present, `positionCounts[key] -= 1`, deleting the entry if it
reaches 0 (undoMove lines 198-201). -/
def pcDecr : List (PosKey × Int) → PosKey → List (PosKey × Int)
  | [], _ => []
  | (k, v) :: rest, key =>
    if k = key then (if v - 1 = 0 then rest else (k, v - 1) :: rest)
    else (k, v) :: pcDecr rest key

/-- GameState.updateCastleRights: one if/elif chain on the moved piece,
then a second on the captured piece. -/
def updateCastleRights (cr : CastleRight) (m : Move) : CastleRight :=
  let cr1 :=
    if m.pieceMoved = 16 then { cr with wks := false, wqs := false }
    else if m.pieceMoved = 26 then { cr with bks := false, bqs := false }
    else if m.pieceMoved = 14 then
      (if m.startRow = 7 then
        (if m.startCol = 0 then { cr with wqs := false }
         else if m.startCol = 7 then { cr with wks := false } else cr)
       else cr)
    else if m.pieceMoved = 24 then
      (if m.startRow = 0 then
        (if m.startCol = 0 then { cr with bqs := false }
         else if m.startCol = 7 then { cr with bks := false } else cr)
       else cr)
    else cr
  if m.pieceCaptured = 14 then
    (if m.endRow = 7 then
      (if m.endCol = 0 then { cr1 with wqs := false }
       else if m.endCol = 7 then { cr1 with wks := false } else cr1)
     else cr1)
  else if m.pieceCaptured = 24 then
    (if m.endRow = 0 then
      (if m.endCol = 0 then { cr1 with bqs := false }
       else if m.endCol = 7 then { cr1 with bks := false } else cr1)
     else cr1)
  else cr1

/-- Evaluate `move.promotionChoice if move.promotionChoice else 5`: Python truthiness
makes both None and 0 fall back to the Queen (5). -/
def promotionPieceOf (m : Move) : Nat :=
  match m.promotionChoice with
  | some p => if p ≠ 0 then p else 5
  | none => 5

/-- The board writes of GameState.makeMove, in source order: clear the start
square, write the moved piece, promotion overwrite, en-passant capture
removal, castle rook relocation. -/
def makeBoard (b : Board) (m : Move) : Board :=
  let b1 := setCell b m.startRow m.startCol 0
  let b2 := setCell b1 m.endRow m.endCol m.pieceMoved
  let b3 :=
    if m.isPawnPromotion then
      setCell b2 m.endRow m.endCol
        ((if m.pieceMoved = 11 then 10 else 20) + promotionPieceOf m)
    else b2
  let b4 := if m.isEnPassantMove then setCell b3 m.startRow m.endCol 0 else b3
  if m.isCastleMove then
    (if m.endCol - m.startCol = 2 then
      setCell (setCell b4 m.endRow (m.endCol - 1) (getCell b4 m.endRow (m.endCol + 1)))
        m.endRow (m.endCol + 1) 0
    else
      setCell (setCell b4 m.endRow (m.endCol + 1) (getCell b4 m.endRow (m.endCol - 2)))
        m.endRow (m.endCol - 2) 0)
  else b4

/-- The board writes of GameState.undoMove, in source order: restore the
start and end squares, en-passant restoration, castle rook un-relocation. -/
def undoBoard (b : Board) (m : Move) : Board :=
  let b1 := setCell b m.startRow m.startCol m.pieceMoved
  let b2 := setCell b1 m.endRow m.endCol m.pieceCaptured
  let b3 :=
    if m.isEnPassantMove then
      setCell (setCell b2 m.endRow m.endCol 0) m.startRow m.endCol m.pieceCaptured
    else b2
  if m.isCastleMove then
    (if m.endCol - m.startCol = 2 then
      setCell (setCell b3 m.endRow (m.endCol + 1) (getCell b3 m.endRow (m.endCol - 1)))
        m.endRow (m.endCol - 1) 0
    else
      setCell (setCell b3 m.endRow (m.endCol - 2) (getCell b3 m.endRow (m.endCol + 1)))
        m.endRow (m.endCol + 1) 0)
  else b3

/-- GameState.makeMove, line for line; the board writes are `makeBoard`. -/
def makeMove (gs : GameState) (m : Move) : GameState :=
  let whiteToMove := !gs.whiteToMove
  let whiteKingLocation :=
    if m.pieceMoved = 16 then (m.endRow, m.endCol) else gs.whiteKingLocation
  let blackKingLocation :=
    if m.pieceMoved = 26 then (m.endRow, m.endCol) else gs.blackKingLocation
  let twoSquare := m.pieceMoved % 10 == 1 && (m.startRow - m.endRow).natAbs == 2
  let enPassantPossible :=
    if twoSquare then some (Int.fdiv (m.startRow + m.endRow) 2, m.startCol) else none
  let enPassantPossibleLog := enPassantPossible :: gs.enPassantPossibleLog
  let currentCastlingRight := updateCastleRights gs.currentCastlingRight m
  let castleRightsLog := currentCastlingRight :: gs.castleRightsLog
  let b5 := makeBoard gs.board m
  let positionCounts := pcIncr gs.positionCounts (b5, whiteToMove)
  let fiftyMoveCounter :=
    if m.pieceMoved % 10 == 1 || m.pieceCaptured != 0 then 0
    else gs.fiftyMoveCounter + 1
  { gs with
    board := b5, whiteToMove := whiteToMove,
    whiteKingLocation := whiteKingLocation, blackKingLocation := blackKingLocation,
    enPassantPossible := enPassantPossible, enPassantPossibleLog := enPassantPossibleLog,
    currentCastlingRight := currentCastlingRight, castleRightsLog := castleRightsLog,
    positionCounts := positionCounts, fiftyMoveCounter := fiftyMoveCounter,
    moveLog := (m, fiftyMoveCounter) :: gs.moveLog }

/-- GameState.undoMove.  The source indexes `enPassantPossibleLog[-1]` and
`castleRightsLog[-1]` after popping; with a non-empty move log both logs hold
at least two entries, so the `getD` defaults below are unreachable. -/
def undoMove (gs : GameState) : GameState :=
  match gs.moveLog with
  | [] => gs
  | (m, _) :: rest =>
    let positionCounts := pcDecr gs.positionCounts (gs.board, gs.whiteToMove)
    let whiteKingLocation :=
      if m.pieceMoved = 16 then (m.startRow, m.startCol) else gs.whiteKingLocation
    let blackKingLocation :=
      if m.pieceMoved = 26 then (m.startRow, m.startCol) else gs.blackKingLocation
    let whiteToMove := !gs.whiteToMove
    let enPassantPossibleLog := gs.enPassantPossibleLog.tail
    let enPassantPossible := enPassantPossibleLog.head?.getD none
    let castleRightsLog := gs.castleRightsLog.tail
    let currentCastlingRight :=
      castleRightsLog.head?.getD (CastleRight.mk true true true true)
    let fiftyMoveCounter := match rest with | [] => 0 | (_, n) :: _ => n
    let b4 := undoBoard gs.board m
    { gs with
      board := b4, whiteToMove := whiteToMove, moveLog := rest,
      whiteKingLocation := whiteKingLocation, blackKingLocation := blackKingLocation,
      enPassantPossible := enPassantPossible, enPassantPossibleLog := enPassantPossibleLog,
      currentCastlingRight := currentCastlingRight, castleRightsLog := castleRightsLog,
      positionCounts := positionCounts, fiftyMoveCounter := fiftyMoveCounter,
      checkMate := false, draw := false }

/-- GameState.insideBoard. -/
def insideBoard (r c : Int) : Bool := decide (0 ≤ r ∧ r < 8 ∧ 0 ≤ c ∧ c < 8)

/-- The attack direction tables of GameState.squareUnderAttack. -/
def knightDirs : List (Int × Int) :=
  [(2, 1), (2, -1), (-2, 1), (-2, -1), (1, 2), (1, -2), (-1, 2), (-1, -2)]

def kingDirsAttack : List (Int × Int) :=
  [(0, 1), (0, -1), (1, 0), (-1, 0), (1, 1), (1, -1), (-1, 1), (-1, -1)]

def rookDirs : List (Int × Int) := [(0, 1), (0, -1), (1, 0), (-1, 0)]

def bishopDirs : List (Int × Int) := [(1, 1), (1, -1), (-1, 1), (-1, -1)]

/-- One sliding ray of squareUnderAttack: `for i in range(1, 8)` stepping
(dr, dc), breaking at the board edge or at the first occupied square, which
attacks iff it is p1 or p2.  `fuel` counts the remaining iterations, `i` is
the loop variable (called with fuel 7, i 1). -/
def rayHitsFrom (b : Board) (r c dr dc : Int) (p1 p2 : Nat) : Nat → Int → Bool
  | 0, _ => false
  | fuel + 1, i =>
    let nr := r + dr * i
    let nc := c + dc * i
    if insideBoard nr nc then
      let piece := getCell b nr nc
      if piece ≠ 0 then decide (piece = p1 ∨ piece = p2)
      else rayHitsFrom b r c dr dc p1 p2 fuel (i + 1)
    else false

/-- GameState.squareUnderAttack(r, c). -/
def squareUnderAttack (gs : GameState) (r c : Int) : Bool :=
  let attackingColor : Nat := if !gs.whiteToMove then 10 else 20
  let pawnDirection : Int := if attackingColor = 20 then -1 else 1
  (insideBoard (r + pawnDirection) (c - 1) &&
    getCell gs.board (r + pawnDirection) (c - 1) == attackingColor + 1) ||
  (insideBoard (r + pawnDirection) (c + 1) &&
    getCell gs.board (r + pawnDirection) (c + 1) == attackingColor + 1) ||
  knightDirs.any (fun d =>
    insideBoard (r + d.1) (c + d.2) &&
    getCell gs.board (r + d.1) (c + d.2) == attackingColor + 2) ||
  rookDirs.any (fun d =>
    rayHitsFrom gs.board r c d.1 d.2 (attackingColor + 4) (attackingColor + 5) 7 1) ||
  bishopDirs.any (fun d =>
    rayHitsFrom gs.board r c d.1 d.2 (attackingColor + 3) (attackingColor + 5) 7 1) ||
  kingDirsAttack.any (fun d =>
    insideBoard (r + d.1) (c + d.2) &&
    getCell gs.board (r + d.1) (c + d.2) == attackingColor + 6)

/-- GameState.inCheck. -/
def inCheck (gs : GameState) : Bool :=
  if gs.whiteToMove then
    squareUnderAttack gs gs.whiteKingLocation.1 gs.whiteKingLocation.2
  else
    squareUnderAttack gs gs.blackKingLocation.1 gs.blackKingLocation.2

/-- GameState.getPawnMoves(r, c); list order matches the append order of
the source. -/
def getPawnMoves (gs : GameState) (r c : Int) : List Move :=
  let b := gs.board
  if gs.whiteToMove then
    (if getCell b (r - 1) c = 0 then
       Move.mk' (r, c) (r - 1, c) b false false none ::
       (if r = 6 ∧ getCell b (r - 2) c = 0 then
          [Move.mk' (r, c) (r - 2, c) b false false none]
        else [])
     else []) ++
    (if c - 1 ≥ 0 then
       (if getCell b (r - 1) (c - 1) / 10 = 2 then
          [Move.mk' (r, c) (r - 1, c - 1) b false false none]
        else if gs.enPassantPossible = some (r - 1, c - 1) then
          [Move.mk' (r, c) (r - 1, c - 1) b true false none]
        else [])
     else []) ++
    (if c + 1 < 8 then
       (if getCell b (r - 1) (c + 1) / 10 = 2 then
          [Move.mk' (r, c) (r - 1, c + 1) b false false none]
        else if gs.enPassantPossible = some (r - 1, c + 1) then
          [Move.mk' (r, c) (r - 1, c + 1) b true false none]
        else [])
     else [])
  else
    (if getCell b (r + 1) c = 0 then
       Move.mk' (r, c) (r + 1, c) b false false none ::
       (if r = 1 ∧ getCell b (r + 2) c = 0 then
          [Move.mk' (r, c) (r + 2, c) b false false none]
        else [])
     else []) ++
    (if c - 1 ≥ 0 then
       (if getCell b (r + 1) (c - 1) / 10 = 1 then
          [Move.mk' (r, c) (r + 1, c - 1) b false false none]
        else if gs.enPassantPossible = some (r + 1, c - 1) then
          [Move.mk' (r, c) (r + 1, c - 1) b true false none]
        else [])
     else []) ++
    (if c + 1 < 8 then
       (if getCell b (r + 1) (c + 1) / 10 = 1 then
          [Move.mk' (r, c) (r + 1, c + 1) b false false none]
        else if gs.enPassantPossible = some (r + 1, c + 1) then
          [Move.mk' (r, c) (r + 1, c + 1) b true false none]
        else [])
     else [])

/-- Integer range [a, b) ascending, as `range(a, b)`. -/
def intRange (a b : Int) : List Int := (List.range (b - a).toNat).map (fun i => a + i)

/-- Integer range from a down to 0, as `range(a, -1, -1)`. -/
def intRangeDown (a : Int) : List Int := (List.range (a + 1).toNat).map (fun i => a - i)

/-- One sliding loop of getRookMoves: walk the listed squares, stop before a
friendly piece, stop after capturing an enemy piece. -/
def rookScan (b : Board) (startR startC : Int) (curr op : Nat) : List (Int × Int) → List Move
  | [] => []
  | sq :: rest =>
    if getCell b sq.1 sq.2 / 10 = curr then []
    else Move.mk' (startR, startC) sq b false false none ::
      (if getCell b sq.1 sq.2 / 10 = op then [] else rookScan b startR startC curr op rest)

/-- GameState.getRookMoves(r, c): right, left, down, up. -/
def getRookMoves (gs : GameState) (r c : Int) : List Move :=
  let curr : Nat := if gs.whiteToMove then 1 else 2
  let op : Nat := if gs.whiteToMove then 2 else 1
  rookScan gs.board r c curr op ((intRange (c + 1) 8).map (fun cc => (r, cc))) ++
  rookScan gs.board r c curr op ((intRangeDown (c - 1)).map (fun cc => (r, cc))) ++
  rookScan gs.board r c curr op ((intRange (r + 1) 8).map (fun rr => (rr, c))) ++
  rookScan gs.board r c curr op ((intRangeDown (r - 1)).map (fun rr => (rr, c)))

/-- GameState.getKnightMoves(r, c). -/
def getKnightMoves (gs : GameState) (r c : Int) : List Move :=
  let curr : Nat := if gs.whiteToMove then 1 else 2
  knightDirs.filterMap (fun d =>
    if insideBoard (r + d.1) (c + d.2) ∧ getCell gs.board (r + d.1) (c + d.2) / 10 ≠ curr
    then some (Move.mk' (r, c) (r + d.1, c + d.2) gs.board false false none)
    else none)

/-- One while-loop of getBishopMoves: step (dr, dc) while inside the board,
stop before a friendly piece, stop after an enemy piece.  A fuel of 8 covers
every run of the source loop, which stays inside an 8×8 board. -/
def bishopWalk (b : Board) (startR startC : Int) (curr op : Nat) (dr dc : Int) :
    Nat → Int → Int → List Move
  | 0, _, _ => []
  | fuel + 1, cr, cc =>
    if insideBoard cr cc then
      if getCell b cr cc / 10 = curr then []
      else Move.mk' (startR, startC) (cr, cc) b false false none ::
        (if getCell b cr cc / 10 = op then []
         else bishopWalk b startR startC curr op dr dc fuel (cr + dr) (cc + dc))
    else []

/-- GameState.getBishopMoves(r, c): down-right, down-left, up-right, up-left. -/
def getBishopMoves (gs : GameState) (r c : Int) : List Move :=
  let curr : Nat := if gs.whiteToMove then 1 else 2
  let op : Nat := if gs.whiteToMove then 2 else 1
  bishopWalk gs.board r c curr op 1 1 8 (r + 1) (c + 1) ++
  bishopWalk gs.board r c curr op 1 (-1) 8 (r + 1) (c - 1) ++
  bishopWalk gs.board r c curr op (-1) 1 8 (r - 1) (c + 1) ++
  bishopWalk gs.board r c curr op (-1) (-1) 8 (r - 1) (c - 1)

/-- GameState.getQueenMoves(r, c) = rook moves then bishop moves. -/
def getQueenMoves (gs : GameState) (r c : Int) : List Move :=
  getRookMoves gs r c ++ getBishopMoves gs r c

/-- The one-square direction table of getKingMoves (its own order in the
source, distinct from the squareUnderAttack table). -/
def kingMoveDirs : List (Int × Int) :=
  [(0, 1), (0, -1), (-1, 1), (-1, -1), (1, 0), (-1, 0), (1, 1), (1, -1)]

/-- GameState.getKingMoves(r, c). -/
def getKingMoves (gs : GameState) (r c : Int) : List Move :=
  let curr : Nat := if gs.whiteToMove then 1 else 2
  kingMoveDirs.filterMap (fun d =>
    if insideBoard (r + d.1) (c + d.2) ∧ getCell gs.board (r + d.1) (c + d.2) / 10 ≠ curr
    then some (Move.mk' (r, c) (r + d.1, c + d.2) gs.board false false none)
    else none)

/-- The moveFunctions dispatch dict: piece type code to generator.  The dict
has exactly the keys 1..6, and getAllPossibleMoves only looks up nonzero
occupied squares, so the catch-all branch is unreachable there. -/
def pieceMovesAt (gs : GameState) (r c : Int) : List Move :=
  match getCell gs.board r c % 10 with
  | 1 => getPawnMoves gs r c
  | 2 => getKnightMoves gs r c
  | 3 => getBishopMoves gs r c
  | 4 => getRookMoves gs r c
  | 5 => getQueenMoves gs r c
  | 6 => getKingMoves gs r c
  | _ => []

/-- GameState.getAllPossibleMoves. -/
def getAllPossibleMoves (gs : GameState) : List Move :=
  (List.range 8).flatMap (fun r =>
    (List.range 8).flatMap (fun c =>
      let piece := getCell gs.board r c
      if piece ≠ 0 ∧ ((piece / 10 = 1 ∧ gs.whiteToMove) ∨ (piece / 10 = 2 ∧ ¬gs.whiteToMove))
      then pieceMovesAt gs r c
      else []))

/-- GameState.getCastleMoves(r, c): nothing while in check; kingside then
queenside candidate, each guarded exactly as in the source. -/
def getCastleMoves (gs : GameState) (r c : Int) : List Move :=
  if inCheck gs then []
  else
    (if ((gs.whiteToMove = true ∧ gs.currentCastlingRight.wks = true) ∨
         (gs.whiteToMove = false ∧ gs.currentCastlingRight.bks = true)) ∧
        c + 2 < 8 ∧ getCell gs.board r (c + 1) = 0 ∧ getCell gs.board r (c + 2) = 0 ∧
        squareUnderAttack gs r (c + 1) = false ∧ squareUnderAttack gs r (c + 2) = false
     then [Move.mk' (r, c) (r, c + 2) gs.board false true none]
     else []) ++
    (if ((gs.whiteToMove = true ∧ gs.currentCastlingRight.wqs = true) ∨
         (gs.whiteToMove = false ∧ gs.currentCastlingRight.bqs = true)) ∧
        c - 3 ≥ 0 ∧ getCell gs.board r (c - 1) = 0 ∧ getCell gs.board r (c - 2) = 0 ∧
        getCell gs.board r (c - 3) = 0 ∧
        squareUnderAttack gs r (c - 1) = false ∧ squareUnderAttack gs r (c - 2) = false
     then [Move.mk' (r, c) (r, c - 2) gs.board false true none]
     else [])

/-- Flatten `[piece for row in self.board for piece in row if piece != 0]`. -/
def flattenPieces (b : Board) : List Nat := (b.flatten).filter (fun p => p ≠ 0)

/-- Collect `[(r, c) for r, row in enumerate(self.board) for c, piece in
enumerate(row) if piece == 13]` — the white bishops only. -/
def bishopSquares (b : Board) : List (Nat × Nat) :=
  b.enum.flatMap (fun rw =>
    rw.2.enum.filterMap (fun cp => if cp.2 = 13 then some (rw.1, cp.1) else none))

/-- GameState.insufficientMaterial, including its order-sensitive
`pieces == [16, 26]` comparison and its white-only piece codes. -/
def insufficientMaterial (gs : GameState) : Bool :=
  let pieces := flattenPieces gs.board
  if pieces = [16, 26] then true
  else if pieces.length = 3 ∧ 16 ∈ pieces ∧ 26 ∈ pieces ∧ (13 ∈ pieces ∨ 12 ∈ pieces) then
    true
  else if pieces.length = 4 ∧ 16 ∈ pieces ∧ 26 ∈ pieces ∧ pieces.count 13 = 2 then
    -- `bishops[0]` / `bishops[1]`: with count 13 = 2 the list has two entries
    match bishopSquares gs.board with
    | b0 :: b1 :: _ => decide ((b0.1 + b0.2) % 2 = (b1.1 + b1.2) % 2)
    | _ => false
  else false

def flipTurn (gs : GameState) : GameState := { gs with whiteToMove := !gs.whiteToMove }

/-- GameState.getValidMoves.  The source's speculative make / flip / inCheck /
flip / undo loop is embedded as a pure filter: `undoMove` after `makeMove`
restores every field the rest of the function reads (theorem
makeMove_undoMove_roundtrip below), except that each `undoMove` also resets
`checkMate` and `draw` to False, which the flag reset below reproduces for a
non-empty candidate list.  The positionCounts-mutation debug print of the
source has no effect on the state.  Returns the valid moves together with the
state carrying the updated terminal flags. -/
def getValidMoves (gs : GameState) : List Move × GameState :=
  let moves := getAllPossibleMoves gs ++
    (if gs.whiteToMove then
       getCastleMoves gs gs.whiteKingLocation.1 gs.whiteKingLocation.2
     else
       getCastleMoves gs gs.blackKingLocation.1 gs.blackKingLocation.2)
  let validMoves := moves.filter (fun m => !(inCheck (flipTurn (makeMove gs m))))
  -- flag values after the speculative loop: every undoMove of the loop resets
  -- both flags to False, so they survive only when there was no candidate;
  -- every other field the classification below reads is restored exactly
  let cm0 := if moves = [] then gs.checkMate else false
  let dr0 := if moves = [] then gs.draw else false
  let gs1 :=
    if validMoves = [] then
      (if inCheck gs then { gs with checkMate := true, draw := dr0 }
       else { gs with checkMate := cm0, draw := true })
    else if 100 ≤ gs.fiftyMoveCounter then { gs with checkMate := cm0, draw := true }
    else if gs.positionCounts.any (fun kv => 3 ≤ kv.2) then
      { gs with checkMate := cm0, draw := true }
    else if insufficientMaterial gs then { gs with checkMate := cm0, draw := true }
    else { gs with checkMate := false, draw := false }
  (validMoves, gs1)

/-- The transposition-table key of SmartMoveFinder.findMoveNegaMaxAlphaBeta:
`hash(str(gs.board))` depends only on the board layout, embedded injectively
as the board itself.  The side to move is not part of the key. -/
def transpositionKey (gs : GameState) : Board := gs.board

/-- First stored entry for a key; a Python dict holds at most one. -/
def ttFind {α : Type} : List (Board × Int × α) → Board → Option (Int × α)
  | [], _ => none
  | (k, d, s) :: rest, key => if k = key then some (d, s) else ttFind rest key

/-- The cache probe of findMoveNegaMaxAlphaBeta (lines 154-156): return the
stored score when an entry for this position's key exists and its stored
depth is at least the remaining depth.  The stored score (a Python float) is
kept abstract. -/
def ttProbe {α : Type} (table : List (Board × Int × α)) (gs : GameState) (depth : Int) :
    Option α :=
  match ttFind table (transpositionKey gs) with
  | some (d, s) => if depth ≤ d then some s else none
  | none => none

/-! ## List and cell algebra -/

theorem list_set_of_le {α : Type} (l : List α) (n : Nat) (a : α) (h : l.length ≤ n) :
    l.set n a = l := by
  induction l generalizing n with
  | nil => simp
  | cons x t ih =>
    cases n with
    | zero => simp at h
    | succ k => simp only [List.set_cons_succ, List.cons.injEq, true_and]
                exact ih k (by simpa using h)

theorem list_set_getD_self {α : Type} (l : List α) (n : Nat) (d : α) :
    l.set n (l.getD n d) = l := by
  induction l generalizing n with
  | nil => simp
  | cons x t ih =>
    cases n with
    | zero => simp [List.getD]
    | succ k => simp only [List.getD_cons_succ, List.set_cons_succ, List.cons.injEq, true_and]
                exact ih k

theorem list_getD_set_self {α : Type} (l : List α) (n : Nat) (x : α) (d : α) :
    (l.set n x).getD n d = if n < l.length then x else d := by
  induction l generalizing n with
  | nil => simp [List.getD]
  | cons a t ih =>
    cases n with
    | zero => simp [List.getD]
    | succ k => simpa [List.getD] using ih k

theorem list_getD_set_ne {α : Type} (l : List α) (n m : Nat) (x : α) (d : α)
    (h : n ≠ m) : (l.set n x).getD m d = l.getD m d := by
  induction l generalizing n m with
  | nil => simp
  | cons a t ih =>
    cases n with
    | zero =>
      cases m with
      | zero => exact absurd rfl h
      | succ j => simp [List.getD]
    | succ k =>
      cases m with
      | zero => simp [List.getD]
      | succ j => simpa [List.getD] using ih k j (by omega)

theorem setCell_self (b : Board) (r c : Int) :
    setCell b r c (getCell b r c) = b := by
  unfold setCell getCell
  cases hr : pyIdx r with
  | none => rfl
  | some i =>
    cases hc : pyIdx c with
    | none => rfl
    | some j => simp only [list_set_getD_self]

theorem setCell_setCell_same (b : Board) (r c : Int) (v w : Nat) :
    setCell (setCell b r c v) r c w = setCell b r c w := by
  unfold setCell
  cases hr : pyIdx r with
  | none => rfl
  | some i =>
    cases hc : pyIdx c with
    | none => rfl
    | some j =>
      simp only []
      by_cases hi : i < b.length
      · rw [list_getD_set_self]
        simp only [hi, if_pos]
        rw [List.set_set, List.set_set]
      · rw [list_set_of_le b i ((b.getD i []).set j v) (by omega)]

theorem setCell_comm (b : Board) (r1 c1 r2 c2 : Int) (v1 v2 : Nat)
    (h : pyIdx r1 ≠ pyIdx r2 ∨ pyIdx c1 ≠ pyIdx c2) :
    setCell (setCell b r1 c1 v1) r2 c2 v2 = setCell (setCell b r2 c2 v2) r1 c1 v1 := by
  unfold setCell
  cases hr1 : pyIdx r1 with
  | none => cases pyIdx r2 with
    | none => rfl
    | some i2 => cases pyIdx c2 with
      | none => rfl
      | some j2 => cases pyIdx c1 with
        | none => rfl
        | some j1 => rfl
  | some i1 =>
    cases hc1 : pyIdx c1 with
    | none => cases pyIdx r2 with
      | none => rfl
      | some i2 => cases pyIdx c2 with
        | none => rfl
        | some j2 => rfl
    | some j1 =>
      cases hr2 : pyIdx r2 with
      | none => rfl
      | some i2 =>
        cases hc2 : pyIdx c2 with
        | none => rfl
        | some j2 =>
          simp only []
          by_cases hii : i1 = i2
          · subst hii
            have hjj : j1 ≠ j2 := by
              rcases h with h | h
              · exact absurd (hr1.trans hr2.symm) h
              · intro e; exact h (by rw [hc1, hc2, e])
            by_cases hi : i1 < b.length
            · rw [list_getD_set_self, list_getD_set_self]
              simp only [List.length_set, hi, if_pos]
              rw [List.set_set, List.set_set, List.set_comm _ _ _ hjj]
            · have e1 : List.set b i1 ((b.getD i1 []).set j1 v1) = b :=
                list_set_of_le _ _ _ (by omega)
              have e2 : List.set b i1 ((b.getD i1 []).set j2 v2) = b :=
                list_set_of_le _ _ _ (by omega)
              simp only [e1, e2]
          · rw [list_getD_set_ne _ _ _ _ _ hii, list_getD_set_ne _ _ _ _ _ (Ne.symm hii),
              List.set_comm _ _ _ hii]

theorem getCell_setCell_ne (b : Board) (r1 c1 r2 c2 : Int) (v : Nat)
    (h : pyIdx r1 ≠ pyIdx r2 ∨ pyIdx c1 ≠ pyIdx c2) :
    getCell (setCell b r1 c1 v) r2 c2 = getCell b r2 c2 := by
  unfold setCell getCell
  cases hr1 : pyIdx r1 with
  | none => rfl
  | some i1 =>
    cases hc1 : pyIdx c1 with
    | none => rfl
    | some j1 =>
      cases hr2 : pyIdx r2 with
      | none => rfl
      | some i2 =>
        cases hc2 : pyIdx c2 with
        | none => rfl
        | some j2 =>
          simp only []
          by_cases hii : i1 = i2
          · subst hii
            have hjj : j1 ≠ j2 := by
              rcases h with h | h
              · exact absurd (hr1.trans hr2.symm) h
              · intro e; exact h (by rw [hc1, hc2, e])
            by_cases hi : i1 < b.length
            · rw [list_getD_set_self]
              simp only [hi, if_pos]
              rw [list_getD_set_ne _ _ _ _ _ hjj]
            · rw [list_set_of_le b i1 ((b.getD i1 []).set j1 v) (by omega)]
          · rw [list_getD_set_ne _ _ _ _ _ hii]

theorem getCell_setCell_same (b : Board) (r c : Int) (v : Nat) (hw : Wf b)
    (hr : 0 ≤ r ∧ r < 8) (hc : 0 ≤ c ∧ c < 8) :
    getCell (setCell b r c v) r c = v := by
  have hpr : pyIdx r = some r.toNat := by unfold pyIdx; rw [if_pos hr]
  have hpc : pyIdx c = some c.toNat := by unfold pyIdx; rw [if_pos hc]
  have hi : r.toNat < b.length := by rw [hw.1]; omega
  have hrow : b.getD r.toNat [] ∈ b := by
    rw [List.getD_eq_getElem b [] hi]; exact List.getElem_mem hi
  have hlen : (b.getD r.toNat []).length = 8 := hw.2 _ hrow
  unfold setCell getCell
  rw [hpr, hpc]
  simp only []
  rw [list_getD_set_self]
  simp only [hi, if_pos]
  rw [list_getD_set_self]
  simp only [hlen]
  have : c.toNat < 8 := by omega
  rw [if_pos this]

theorem Wf_setCell (b : Board) (r c : Int) (v : Nat) (hw : Wf b) :
    Wf (setCell b r c v) := by
  unfold setCell
  cases pyIdx r with
  | none => exact hw
  | some i =>
    cases pyIdx c with
    | none => exact hw
    | some j =>
      simp only []
      by_cases hi : i < b.length
      · refine ⟨by simpa using hw.1, ?_⟩
        intro row hrow
        rcases List.mem_or_eq_of_mem_set hrow with h | h
        · exact hw.2 _ h
        · subst h
          have hmem : b.getD i [] ∈ b := by
            rw [List.getD_eq_getElem b [] hi]; exact List.getElem_mem hi
          simpa using hw.2 _ hmem
      · rw [list_set_of_le _ _ _ (by omega)]; exact hw

theorem pyIdx_eq_iff {x y : Int} (hx : 0 ≤ x ∧ x < 8) (hy : 0 ≤ y ∧ y < 8) :
    pyIdx x = pyIdx y ↔ x = y := by
  unfold pyIdx
  rw [if_pos hx, if_pos hy]
  constructor
  · intro h
    have := Option.some.inj h
    omega
  · intro h; rw [h]

theorem pyIdx_ne {x y : Int} (hx : 0 ≤ x ∧ x < 8) (hy : 0 ≤ y ∧ y < 8) (hxy : x ≠ y) :
    pyIdx x ≠ pyIdx y := fun h => hxy ((pyIdx_eq_iff hx hy).mp h)

theorem pcDecr_pcIncr (l : List (PosKey × Int)) (key : PosKey)
    (h : ∀ kv ∈ l, 1 ≤ kv.2) : pcDecr (pcIncr l key) key = l := by
  induction l with
  | nil => simp [pcIncr, pcDecr]
  | cons kv rest ih =>
    obtain ⟨k, v⟩ := kv
    by_cases hk : k = key
    · have hv : 1 ≤ v := h (k, v) (by simp)
      simp only [pcIncr, if_pos hk, pcDecr]
      have : ¬(v + 1 - 1 = 0) := by omega
      rw [if_neg this]
      simp
    · simp only [pcIncr, if_neg hk, pcDecr]
      rw [ih (fun kv hkv => h kv (List.mem_cons_of_mem _ hkv))]

/-! ## Reachability invariants and legal-move facts -/

/-- Structural invariants of every reachable GameState: the board is an 8×8
grid, the history-log tops mirror the current en-passant target, castling
rights, and half-move clock, and every position count is at least 1.  They
hold of the initial state and are preserved by makeMove / undoMove. -/
structure StateInv (gs : GameState) : Prop where
  wf : Wf gs.board
  epLog : gs.enPassantPossibleLog.head? = some gs.enPassantPossible
  crLog : gs.castleRightsLog.head? = some gs.currentCastlingRight
  fifty : gs.fiftyMoveCounter = (match gs.moveLog with | [] => 0 | (_, n) :: _ => n)
  counts : ∀ kv ∈ gs.positionCounts, 1 ≤ kv.2

/-- Facts that hold of every legal move of a reachable position as the
generators construct it (Move.__init__ against the current board): on-board
coordinates, distinct start and end squares, pieceMoved / pieceCaptured read
off the board, the promotion flag given by the constructor's formula, the
mover's cached king location agreeing with the start square, an en-passant
capture landing on an empty square with the enemy pawn beside the start
square, and a castle moving along the king's home row from file e with the
rook's transit square empty. -/
structure MoveOK (gs : GameState) (m : Move) : Prop where
  bsr : 0 ≤ m.startRow ∧ m.startRow < 8
  bsc : 0 ≤ m.startCol ∧ m.startCol < 8
  ber : 0 ≤ m.endRow ∧ m.endRow < 8
  bec : 0 ≤ m.endCol ∧ m.endCol < 8
  nse : ¬(m.startRow = m.endRow ∧ m.startCol = m.endCol)
  moved : m.pieceMoved = getCell gs.board m.startRow m.startCol
  capNormal : m.isEnPassantMove = false → m.pieceCaptured = getCell gs.board m.endRow m.endCol
  capEp : m.isEnPassantMove = true →
    getCell gs.board m.endRow m.endCol = 0 ∧
    getCell gs.board m.startRow m.endCol = m.pieceCaptured ∧
    m.startRow ≠ m.endRow ∧ m.startCol ≠ m.endCol
  wkLoc : m.pieceMoved = 16 → gs.whiteKingLocation = (m.startRow, m.startCol)
  bkLoc : m.pieceMoved = 26 → gs.blackKingLocation = (m.startRow, m.startCol)
  castleShape : m.isCastleMove = true →
    m.startRow = m.endRow ∧ m.startCol = 4 ∧
    ((m.endCol = 6 ∧ getCell gs.board m.endRow 5 = 0) ∨
     (m.endCol = 2 ∧ getCell gs.board m.endRow 3 = 0))

/-! ## C1: makeMove then undoMove restores the position -/

/-- Round trip of the four board cells a castle touches: king start cs, king
end ce, the rook's destination ca (originally empty), and the rook's home ch.
The make-side writes then the undo-side writes restore the board. -/
theorem castle_cells_roundtrip (b : Board) (hw : Wf b) (r cs ce ca ch : Int)
    (w pm pc : Nat)
    (hr : 0 ≤ r ∧ r < 8) (hcs : 0 ≤ cs ∧ cs < 8) (hce : 0 ≤ ce ∧ ce < 8)
    (hca : 0 ≤ ca ∧ ca < 8) (hch : 0 ≤ ch ∧ ch < 8)
    (d1 : cs ≠ ce) (d2 : cs ≠ ca) (d3 : cs ≠ ch) (d4 : ce ≠ ca) (d5 : ce ≠ ch)
    (d6 : ca ≠ ch)
    (hpm : pm = getCell b r cs) (hpc : pc = getCell b r ce)
    (hca0 : getCell b r ca = 0) :
    (let b4 := setCell (setCell b r cs 0) r ce w
     let b5 := setCell (setCell b4 r ca (getCell b4 r ch)) r ch 0
     let u2 := setCell (setCell b5 r cs pm) r ce pc
     setCell (setCell u2 r ch (getCell u2 r ca)) r ca 0) = b := by
  have nSE : pyIdx r ≠ pyIdx r ∨ pyIdx cs ≠ pyIdx ce := Or.inr (pyIdx_ne hcs hce d1)
  have nSA : pyIdx r ≠ pyIdx r ∨ pyIdx cs ≠ pyIdx ca := Or.inr (pyIdx_ne hcs hca d2)
  have nSH : pyIdx r ≠ pyIdx r ∨ pyIdx cs ≠ pyIdx ch := Or.inr (pyIdx_ne hcs hch d3)
  have nEA : pyIdx r ≠ pyIdx r ∨ pyIdx ce ≠ pyIdx ca := Or.inr (pyIdx_ne hce hca d4)
  have nEH : pyIdx r ≠ pyIdx r ∨ pyIdx ce ≠ pyIdx ch := Or.inr (pyIdx_ne hce hch d5)
  have nAH : pyIdx r ≠ pyIdx r ∨ pyIdx ca ≠ pyIdx ch := Or.inr (pyIdx_ne hca hch d6)
  have nES := nSE.imp id Ne.symm
  have nAS := nSA.imp id Ne.symm
  have nHS := nSH.imp id Ne.symm
  have nAE := nEA.imp id Ne.symm
  have nHE := nEH.imp id Ne.symm
  have nHA := nAH.imp id Ne.symm
  have hY : setCell b r cs pm = b := by rw [hpm]; exact setCell_self b r cs
  have hPC : setCell b r ce pc = b := by rw [hpc]; exact setCell_self b r ce
  have hCA : setCell b r ca 0 = b := by
    conv_lhs => rw [← hca0]
    exact setCell_self b r ca
  have hCH : setCell b r ch (getCell b r ch) = b := setCell_self b r ch
  simp only []
  -- the rook value read by makeMove: the original occupant of ch
  have hwf1 : Wf (setCell b r cs 0) := Wf_setCell _ _ _ _ hw
  have hwf4 : Wf (setCell (setCell b r cs 0) r ce w) := Wf_setCell _ _ _ _ hwf1
  have hR : getCell (setCell (setCell b r cs 0) r ce w) r ch = getCell b r ch := by
    rw [getCell_setCell_ne _ _ _ _ _ _ nEH, getCell_setCell_ne _ _ _ _ _ _ nSH]
  rw [hR]
  -- the rook value read by undoMove: the same occupant, now sitting on ca
  have hW : getCell (setCell (setCell
      (setCell (setCell (setCell (setCell b r cs 0) r ce w) r ca (getCell b r ch)) r ch 0)
      r cs pm) r ce pc) r ca = getCell b r ch := by
    rw [getCell_setCell_ne _ _ _ _ _ _ nEA, getCell_setCell_ne _ _ _ _ _ _ nSA,
      getCell_setCell_ne _ _ _ _ _ _ nHA,
      getCell_setCell_same _ _ _ _ hwf4 hr hca]
  rw [hW]
  -- bubble the undo writes of cs and ce inward to meet the make writes
  rw [setCell_comm _ r ch r cs 0 pm nHS]
  rw [setCell_comm _ r ca r cs (getCell b r ch) pm nAS]
  rw [setCell_comm _ r ce r cs w pm nES]
  rw [setCell_setCell_same b r cs 0 pm]
  rw [setCell_comm _ r ch r ce 0 pc nHE]
  rw [setCell_comm _ r ca r ce (getCell b r ch) pc nAE]
  rw [setCell_setCell_same _ r ce w pc]
  -- collapse the rook writes
  rw [setCell_setCell_same _ r ch 0 (getCell b r ch)]
  rw [setCell_comm _ r ch r ca (getCell b r ch) 0 nHA]
  rw [setCell_setCell_same _ r ca (getCell b r ch) 0]
  -- every remaining write rewrites its cell to its original content
  rw [hY, hPC, hCA, hCH]

/-- The undo board writes restore the make board writes on any 8×8 board, for
any move satisfying the legality facts of `MoveOK`. -/
theorem undoBoard_makeBoard (b : Board) (m : Move) (hw : Wf b)
    (hbsr : 0 ≤ m.startRow ∧ m.startRow < 8) (hbsc : 0 ≤ m.startCol ∧ m.startCol < 8)
    (hber : 0 ≤ m.endRow ∧ m.endRow < 8) (hbec : 0 ≤ m.endCol ∧ m.endCol < 8)
    (hne : ¬(m.startRow = m.endRow ∧ m.startCol = m.endCol))
    (hmoved : m.pieceMoved = getCell b m.startRow m.startCol)
    (hcapN : m.isEnPassantMove = false → m.pieceCaptured = getCell b m.endRow m.endCol)
    (hcapE : m.isEnPassantMove = true →
      getCell b m.endRow m.endCol = 0 ∧
      getCell b m.startRow m.endCol = m.pieceCaptured ∧
      m.startRow ≠ m.endRow ∧ m.startCol ≠ m.endCol)
    (hcastle : m.isCastleMove = true →
      m.startRow = m.endRow ∧ m.startCol = 4 ∧
      ((m.endCol = 6 ∧ getCell b m.endRow 5 = 0) ∨
       (m.endCol = 2 ∧ getCell b m.endRow 3 = 0))) :
    undoBoard (makeBoard b m) m = b := by
  obtain ⟨sr, sc, er, ec, pm, pc, mid, promo, pch, epF, csF⟩ := m
  simp only at hbsr hbsc hber hbec hne hmoved hcapN hcapE hcastle
  have hSE : pyIdx sr ≠ pyIdx er ∨ pyIdx sc ≠ pyIdx ec := by
    rcases not_and_or.mp hne with h | h
    · exact Or.inl (pyIdx_ne hbsr hber h)
    · exact Or.inr (pyIdx_ne hbsc hbec h)
  have hES := hSE.imp Ne.symm Ne.symm
  cases csF with
  | true =>
    obtain ⟨hre, hsc4, hside⟩ := hcastle rfl
    cases epF with
    | true => exact absurd hre (hcapE rfl).2.2.1
    | false =>
      have hpc : pc = getCell b er ec := hcapN rfl
      subst hre
      subst hsc4
      rcases hside with ⟨hec, ha0⟩ | ⟨hec, ha0⟩
      · -- kingside: ec = 6, rook from file 7 to file 5
        subst hec
        simp only [makeBoard, undoBoard]
        norm_num
        cases promo with
        | false =>
          exact castle_cells_roundtrip b hw sr 4 6 5 7 pm pm pc hbsr
            (by norm_num) (by norm_num) (by norm_num) (by norm_num)
            (by norm_num) (by norm_num) (by norm_num) (by norm_num) (by norm_num)
            (by norm_num) hmoved hpc ha0
        | true =>
          rw [setCell_setCell_same]
          exact castle_cells_roundtrip b hw sr 4 6 5 7 _ pm pc hbsr
            (by norm_num) (by norm_num) (by norm_num) (by norm_num)
            (by norm_num) (by norm_num) (by norm_num) (by norm_num) (by norm_num)
            (by norm_num) hmoved hpc ha0
      · -- queenside: ec = 2, rook from file 0 to file 3
        subst hec
        simp only [makeBoard, undoBoard]
        norm_num
        cases promo with
        | false =>
          exact castle_cells_roundtrip b hw sr 4 2 3 0 pm pm pc hbsr
            (by norm_num) (by norm_num) (by norm_num) (by norm_num)
            (by norm_num) (by norm_num) (by norm_num) (by norm_num) (by norm_num)
            (by norm_num) hmoved hpc ha0
        | true =>
          rw [setCell_setCell_same]
          exact castle_cells_roundtrip b hw sr 4 2 3 0 _ pm pc hbsr
            (by norm_num) (by norm_num) (by norm_num) (by norm_num)
            (by norm_num) (by norm_num) (by norm_num) (by norm_num) (by norm_num)
            (by norm_num) hmoved hpc ha0
  | false =>
    cases epF with
    | false =>
      have hpc : pc = getCell b er ec := hcapN rfl
      have key : ∀ w : Nat,
          setCell (setCell (setCell (setCell b sr sc 0) er ec w) sr sc pm) er ec pc
            = b := by
        intro w
        rw [setCell_comm _ er ec sr sc w pm hES]
        rw [setCell_setCell_same b sr sc 0 pm]
        rw [setCell_setCell_same _ er ec w pc]
        rw [setCell_comm _ sr sc er ec pm pc hSE]
        rw [hpc, setCell_self]
        rw [hmoved, setCell_self]
      simp only [makeBoard, undoBoard]
      cases promo with
      | false => simp only [Bool.false_eq_true, if_false]; exact key pm
      | true =>
        simp only [Bool.false_eq_true, if_false, if_true]
        rw [setCell_setCell_same _ er ec pm]
        exact key _
    | true =>
      obtain ⟨he0, hxc, hrne, hcne⟩ := hcapE rfl
      have hXS : pyIdx sr ≠ pyIdx sr ∨ pyIdx ec ≠ pyIdx sc :=
        Or.inr (pyIdx_ne hbec hbsc (Ne.symm hcne))
      have hXE : pyIdx sr ≠ pyIdx er ∨ pyIdx ec ≠ pyIdx ec :=
        Or.inl (pyIdx_ne hbsr hber hrne)
      have hE0 : setCell b er ec 0 = b := by
        rw [← he0]; exact setCell_self b er ec
      have hXC : setCell b sr ec pc = b := by
        rw [← hxc]; exact setCell_self b sr ec
      have key : ∀ w : Nat,
          setCell (setCell (setCell (setCell
            (setCell (setCell (setCell b sr sc 0) er ec w) sr ec 0)
            sr sc pm) er ec pc) er ec 0) sr ec pc = b := by
        intro w
        rw [setCell_setCell_same _ er ec pc 0]
        rw [setCell_comm _ sr ec sr sc 0 pm hXS]
        rw [setCell_comm _ er ec sr sc w pm hES]
        rw [setCell_setCell_same b sr sc 0 pm]
        rw [setCell_comm _ sr ec er ec 0 0 hXE]
        rw [setCell_setCell_same _ er ec w 0]
        rw [setCell_setCell_same _ sr ec 0 pc]
        rw [hmoved, setCell_self b sr sc]
        rw [hE0, hXC]
      simp only [makeBoard, undoBoard]
      cases promo with
      | false => simp only [Bool.false_eq_true, if_false, if_true]; exact key pm
      | true =>
        simp only [Bool.false_eq_true, if_false, if_true]
        rw [setCell_setCell_same _ er ec pm]
        exact key _

/-- C1: for every reachable position (StateInv) and every legal move (MoveOK),
makeMove followed by undoMove restores the board, the side to move, both
cached king locations, the castling rights, the en-passant target, the
half-move clock, and the positionCounts map to exact equality with their
values before makeMove. -/
theorem makeMove_undoMove_roundtrip (gs : GameState) (m : Move)
    (hInv : StateInv gs) (hm : MoveOK gs m) :
    (undoMove (makeMove gs m)).board = gs.board ∧
    (undoMove (makeMove gs m)).whiteToMove = gs.whiteToMove ∧
    (undoMove (makeMove gs m)).whiteKingLocation = gs.whiteKingLocation ∧
    (undoMove (makeMove gs m)).blackKingLocation = gs.blackKingLocation ∧
    (undoMove (makeMove gs m)).currentCastlingRight = gs.currentCastlingRight ∧
    (undoMove (makeMove gs m)).enPassantPossible = gs.enPassantPossible ∧
    (undoMove (makeMove gs m)).fiftyMoveCounter = gs.fiftyMoveCounter ∧
    (undoMove (makeMove gs m)).positionCounts = gs.positionCounts := by
  have hb := undoBoard_makeBoard gs.board m hInv.wf hm.bsr hm.bsc hm.ber hm.bec
    hm.nse hm.moved hm.capNormal hm.capEp hm.castleShape
  simp only [makeMove, undoMove]
  refine ⟨hb, Bool.not_not _, ?_, ?_, ?_, ?_, ?_, ?_⟩
  · by_cases h16 : m.pieceMoved = 16
    · simp only [h16, if_pos rfl]
      exact (hm.wkLoc h16).symm
    · simp only [if_neg h16]
  · by_cases h26 : m.pieceMoved = 26
    · simp only [h26, if_pos rfl]
      exact (hm.bkLoc h26).symm
    · simp only [if_neg h26]
  · simp only [List.tail_cons]
    rw [hInv.crLog]
    rfl
  · simp only [List.tail_cons]
    rw [hInv.epLog]
    rfl
  · exact hInv.fifty.symm
  · exact pcDecr_pcIncr gs.positionCounts _ hInv.counts

/-- The double pawn advance e2-e4 from the initial position. -/
def mE2E4 : Move := Move.mk' (6, 4) (4, 4) initBoard false false none

/-- Witness for C1: the initial position satisfies the reachability
invariants, e2-e4 satisfies the legal-move facts, and the round trip restores
the initial position. -/
theorem makeMove_undoMove_roundtrip_witness :
    StateInv initGameState ∧ MoveOK initGameState mE2E4 ∧
    (undoMove (makeMove initGameState mE2E4)).board = initGameState.board ∧
    (undoMove (makeMove initGameState mE2E4)).positionCounts =
      initGameState.positionCounts :=
  have h1 : StateInv initGameState := ⟨by decide, rfl, rfl, rfl, by decide⟩
  have h2 : MoveOK initGameState mE2E4 :=
    ⟨by decide, by decide, by decide, by decide, by decide, by decide,
     by decide, by decide, by decide, by decide, by decide⟩
  ⟨h1, h2, (makeMove_undoMove_roundtrip initGameState mE2E4 h1 h2).1,
    (makeMove_undoMove_roundtrip initGameState mE2E4 h1 h2).2.2.2.2.2.2.2⟩

/-! ## C9: undo with empty history is a no-op -/

/-- C9: calling undoMove with an empty move log leaves every field of the
position unchanged — board, side to move, king locations, castling rights,
en-passant target, half-move clock, positionCounts, and both terminal flags.
The embedding is a total function, so no error is raised. -/
theorem undoMove_empty_log (gs : GameState) (h : gs.moveLog = []) :
    undoMove gs = gs := by
  simp only [undoMove, h]

/-- Witness for C9 at the freshly initialised state. -/
theorem undoMove_empty_log_witness :
    initGameState.moveLog = [] ∧ undoMove initGameState = initGameState :=
  ⟨rfl, undoMove_empty_log initGameState rfl⟩

/-! ## C8: twenty legal moves in the initial position -/

/-- C8: on the freshly initialised starting position, getValidMoves returns
exactly 20 legal moves for White. -/
theorem getValidMoves_initial_length :
    (getValidMoves initGameState).1.length = 20 := by decide

/-! ## C5: terminal-flag classification order -/

/-- C5: after getValidMoves the terminal flags follow the priority order of
the source: no legal moves and in check sets checkMate; no legal moves and
not in check sets draw (stalemate); only when legal moves exist are the
remaining draw conditions tested — half-move clock ≥ 100, any position count
≥ 3, then insufficient material — and when none applies both flags are
false. -/
theorem getValidMoves_terminal_flags (gs : GameState) :
    ((getValidMoves gs).1 = [] ∧ inCheck gs = true →
        (getValidMoves gs).2.checkMate = true) ∧
    ((getValidMoves gs).1 = [] ∧ inCheck gs = false →
        (getValidMoves gs).2.draw = true) ∧
    ((getValidMoves gs).1 ≠ [] →
        (getValidMoves gs).2.checkMate = false ∧
        ((getValidMoves gs).2.draw = true ↔
          (100 ≤ gs.fiftyMoveCounter ∨
           gs.positionCounts.any (fun kv => 3 ≤ kv.2) = true ∨
           insufficientMaterial gs = true))) := by
  simp only [getValidMoves]
  refine ⟨?_, ?_, ?_⟩
  · rintro ⟨hvm, hic⟩
    simp only [hvm, hic, if_pos, if_true]
  · rintro ⟨hvm, hic⟩
    simp only [hvm, hic, if_pos, if_false, Bool.false_eq_true]
  · intro hvm
    have hmoves : ¬(getAllPossibleMoves gs ++
        (if gs.whiteToMove then
          getCastleMoves gs gs.whiteKingLocation.1 gs.whiteKingLocation.2
         else
          getCastleMoves gs gs.blackKingLocation.1 gs.blackKingLocation.2)) = [] := by
      intro h
      exact hvm (by simp only [h, List.filter_nil])
    simp only [hmoves, if_neg, if_false]
    rw [if_neg hvm]
    by_cases h1 : 100 ≤ gs.fiftyMoveCounter
    · simp [h1]
    · rw [if_neg h1]
      by_cases h2 : gs.positionCounts.any (fun kv => 3 ≤ kv.2) = true
      · simp [h1, h2]
      · rw [if_neg h2]
        by_cases h3 : insufficientMaterial gs = true
        · simp [h1, h2, h3]
        · rw [if_neg h3]
          simp [h1, h2, h3]

/-- Witness for C5 at the initial position: legal moves exist and none of the
draw conditions applies, so both flags are false. -/
theorem getValidMoves_terminal_flags_witness :
    (getValidMoves initGameState).1 ≠ [] ∧
    (getValidMoves initGameState).2.checkMate = false ∧
    (getValidMoves initGameState).2.draw = false := by
  have h := (getValidMoves_terminal_flags initGameState).2.2 (by decide)
  refine ⟨by decide, h.1, ?_⟩
  have hnone : ¬(100 ≤ initGameState.fiftyMoveCounter ∨
      initGameState.positionCounts.any (fun kv => 3 ≤ kv.2) = true ∨
      insufficientMaterial initGameState = true) := by decide
  cases hdr : (getValidMoves initGameState).2.draw
  · rfl
  · exact absurd (h.2.mp hdr) hnone

/-! ## C6: castle-move generation conditions -/

/-- C6: with the king on its home file (column 4), getCastleMoves produces
the kingside castle exactly when the mover is not in check, the matching
rights flag is set, both squares between king and rook (files f and g) are
empty, and neither the king's transit square nor its destination is attacked;
and the queenside castle exactly when the mover is not in check, the matching
rights flag is set, the three squares between king and rook (files b, c, d)
are empty, and neither the transit square (file d) nor the destination
(file c) is attacked — the b-file square must be empty but may be attacked. -/
theorem getCastleMoves_iff (gs : GameState) (r : Int) :
    (Move.mk' (r, 4) (r, 6) gs.board false true none ∈ getCastleMoves gs r 4 ↔
      (inCheck gs = false ∧
       ((gs.whiteToMove = true ∧ gs.currentCastlingRight.wks = true) ∨
        (gs.whiteToMove = false ∧ gs.currentCastlingRight.bks = true)) ∧
       getCell gs.board r 5 = 0 ∧ getCell gs.board r 6 = 0 ∧
       squareUnderAttack gs r 5 = false ∧ squareUnderAttack gs r 6 = false)) ∧
    (Move.mk' (r, 4) (r, 2) gs.board false true none ∈ getCastleMoves gs r 4 ↔
      (inCheck gs = false ∧
       ((gs.whiteToMove = true ∧ gs.currentCastlingRight.wqs = true) ∨
        (gs.whiteToMove = false ∧ gs.currentCastlingRight.bqs = true)) ∧
       getCell gs.board r 3 = 0 ∧ getCell gs.board r 2 = 0 ∧
       getCell gs.board r 1 = 0 ∧
       squareUnderAttack gs r 3 = false ∧ squareUnderAttack gs r 2 = false)) := by
  have e1 : (4 : Int) + 2 = 6 := by norm_num
  have e2 : (4 : Int) - 2 = 2 := by norm_num
  have e3 : (4 : Int) + 1 = 5 := by norm_num
  have e4 : (4 : Int) - 1 = 3 := by norm_num
  have e5 : (4 : Int) - 3 = 1 := by norm_num
  have hne : (Move.mk' (r, 4) (r, 6) gs.board false true none) ≠
      Move.mk' (r, 4) (r, 2) gs.board false true none := by
    intro h
    have h2 := congrArg Move.endCol h
    simp only [Move.mk'] at h2
    norm_num at h2
  unfold getCastleMoves
  simp only [e1, e2, e3, e4, e5]
  by_cases hchk : inCheck gs = true
  · rw [if_pos hchk, hchk]
    simp
  · rw [if_neg hchk]
    rw [Bool.not_eq_true] at hchk
    have h68 : (6 : Int) < 8 := by norm_num
    have h10 : (0 : Int) ≤ 1 := by norm_num
    by_cases hA : ((gs.whiteToMove = true ∧ gs.currentCastlingRight.wks = true) ∨
        (gs.whiteToMove = false ∧ gs.currentCastlingRight.bks = true)) ∧
        (6 : Int) < 8 ∧ getCell gs.board r 5 = 0 ∧ getCell gs.board r 6 = 0 ∧
        squareUnderAttack gs r 5 = false ∧ squareUnderAttack gs r 6 = false
    · rw [if_pos hA]
      by_cases hB : ((gs.whiteToMove = true ∧ gs.currentCastlingRight.wqs = true) ∨
          (gs.whiteToMove = false ∧ gs.currentCastlingRight.bqs = true)) ∧
          (0 : Int) ≤ 1 ∧ getCell gs.board r 3 = 0 ∧ getCell gs.board r 2 = 0 ∧
          getCell gs.board r 1 = 0 ∧
          squareUnderAttack gs r 3 = false ∧ squareUnderAttack gs r 2 = false
      · rw [if_pos hB]
        simp only [List.mem_append, List.mem_singleton, List.not_mem_nil]
        constructor
        · constructor
          · intro _; exact ⟨hchk, hA.1, hA.2.2⟩
          · intro _; exact Or.inl trivial
        · constructor
          · intro _; exact ⟨hchk, hB.1, hB.2.2⟩
          · intro _; exact Or.inr trivial
      · rw [if_neg hB]
        simp only [List.mem_append, List.mem_singleton, List.not_mem_nil, or_false]
        constructor
        · constructor
          · intro _; exact ⟨hchk, hA.1, hA.2.2⟩
          · intro _; trivial
        · constructor
          · intro h; exact absurd h.symm hne
          · rintro ⟨-, hf, hc⟩; exact absurd ⟨hf, h10, hc⟩ hB
    · rw [if_neg hA]
      simp only [List.nil_append]
      by_cases hB : ((gs.whiteToMove = true ∧ gs.currentCastlingRight.wqs = true) ∨
          (gs.whiteToMove = false ∧ gs.currentCastlingRight.bqs = true)) ∧
          (0 : Int) ≤ 1 ∧ getCell gs.board r 3 = 0 ∧ getCell gs.board r 2 = 0 ∧
          getCell gs.board r 1 = 0 ∧
          squareUnderAttack gs r 3 = false ∧ squareUnderAttack gs r 2 = false
      · rw [if_pos hB]
        simp only [List.mem_singleton]
        constructor
        · constructor
          · intro h; exact absurd h hne
          · rintro ⟨-, hf, hc⟩; exact absurd ⟨hf, h68, hc⟩ hA
        · constructor
          · intro _; exact ⟨hchk, hB.1, hB.2.2⟩
          · intro _; trivial
      · rw [if_neg hB]
        simp only [List.not_mem_nil, false_iff]
        constructor
        · rintro ⟨-, hf, hc⟩; exact absurd ⟨hf, h68, hc⟩ hA
        · rintro ⟨-, hf, hc⟩; exact absurd ⟨hf, h10, hc⟩ hB

/-- Witness for C6: in the initial position neither castle is generated for
White (the transit squares are occupied), matching the conditions. -/
theorem getCastleMoves_iff_witness :
    ¬(Move.mk' ((7 : Int), 4) ((7 : Int), 6) initGameState.board false true none ∈
        getCastleMoves initGameState 7 4) ∧
    ¬(getCell initGameState.board 7 5 = 0) := by
  refine ⟨?_, by decide⟩
  intro h
  have h2 := ((getCastleMoves_iff initGameState 7).1.mp h).2.2.1
  exact absurd h2 (by decide)

/-! ## C7: Move equality compares only the moveID -/

/-- Counterexample to C7 as stated: two moves with identical start and end
squares but different isCastleMove flags compare equal under Move.__eq__,
because only the moveID (derived from the four coordinates) is compared. -/
theorem move_pyEq_ignores_flags_counterexample :
    Move.pyEq (Move.mk' ((7 : Int), 4) ((7 : Int), 6) initBoard false true none)
        (Move.mk' ((7 : Int), 4) ((7 : Int), 6) initBoard false false none) = true ∧
    (Move.mk' ((7 : Int), 4) ((7 : Int), 6) initBoard false true none).isCastleMove ≠
      (Move.mk' ((7 : Int), 4) ((7 : Int), 6) initBoard false false none).isCastleMove := by
  decide

/-- C7 amended: for constructor-built moves with on-board coordinates, two
moves compare equal exactly when their start and end squares coincide; the
special-move flags, the boards, and the promotion choices play no part. -/
theorem move_pyEq_iff_squares (s1 e1 s2 e2 : Int × Int) (b1 b2 : Board)
    (ep1 cs1 ep2 cs2 : Bool) (pc1 pc2 : Option Nat)
    (h1 : 0 ≤ s1.1 ∧ s1.1 < 8) (h2 : 0 ≤ s1.2 ∧ s1.2 < 8)
    (h3 : 0 ≤ e1.1 ∧ e1.1 < 8) (h4 : 0 ≤ e1.2 ∧ e1.2 < 8)
    (h5 : 0 ≤ s2.1 ∧ s2.1 < 8) (h6 : 0 ≤ s2.2 ∧ s2.2 < 8)
    (h7 : 0 ≤ e2.1 ∧ e2.1 < 8) (h8 : 0 ≤ e2.2 ∧ e2.2 < 8) :
    Move.pyEq (Move.mk' s1 e1 b1 ep1 cs1 pc1) (Move.mk' s2 e2 b2 ep2 cs2 pc2) = true ↔
      (s1 = s2 ∧ e1 = e2) := by
  obtain ⟨a1, a2⟩ := s1
  obtain ⟨a3, a4⟩ := e1
  obtain ⟨a5, a6⟩ := s2
  obtain ⟨a7, a8⟩ := e2
  simp only [Move.pyEq, Move.mk', beq_iff_eq, Prod.mk.injEq] at *
  omega

/-- Witness for the amended C7 at two concrete constructor-built moves. -/
theorem move_pyEq_iff_squares_witness :
    ((0 : Int) ≤ 6 ∧ (6 : Int) < 8) ∧
    (Move.pyEq (Move.mk' ((6 : Int), 4) ((4 : Int), 4) initBoard false false none)
        (Move.mk' ((6 : Int), 4) ((4 : Int), 4) initBoard true false (some 3)) = true ↔
      (((6 : Int), (4 : Int)) = ((6 : Int), (4 : Int)) ∧
       ((4 : Int), (4 : Int)) = ((4 : Int), (4 : Int)))) :=
  ⟨by norm_num,
   move_pyEq_iff_squares ((6 : Int), 4) ((4 : Int), 4) ((6 : Int), 4) ((4 : Int), 4)
     initBoard initBoard false false true false none (some 3)
     (by norm_num) (by norm_num) (by norm_num) (by norm_num)
     (by norm_num) (by norm_num) (by norm_num) (by norm_num)⟩

/-! ## C3: promotion defaults and malformed promotion choices -/

def promoBoard : Board :=
  [[ 0,  0,  0,  0, 26,  0,  0,  0],
   [11,  0,  0,  0,  0,  0,  0,  0],
   [ 0,  0,  0,  0,  0,  0,  0,  0],
   [ 0,  0,  0,  0,  0,  0,  0,  0],
   [ 0,  0,  0,  0,  0,  0,  0,  0],
   [ 0,  0,  0,  0,  0,  0,  0,  0],
   [ 0,  0,  0,  0,  0,  0,  0,  0],
   [ 0,  0,  0,  0, 16,  0,  0,  0]]

/-- A reachable-shaped position with a white pawn one step from promotion. -/
def promoState : GameState :=
  { board := promoBoard, whiteToMove := true, moveLog := [],
    whiteKingLocation := (7, 4), blackKingLocation := (0, 4),
    checkMate := false, draw := false, enPassantPossible := none,
    currentCastlingRight := CastleRight.mk false false false false,
    castleRightsLog := [CastleRight.mk false false false false],
    enPassantPossibleLog := [none], simulation := false,
    positionCounts := [((promoBoard, true), 1)], fiftyMoveCounter := 0 }

/-- Counterexample to C3 as stated: a malformed promotionChoice of 6 (King)
is neither rejected nor clamped — makeMove writes a white king (16) onto the
promotion square. -/
theorem makeMove_malformed_promotion_counterexample :
    (Move.mk' ((1 : Int), 0) ((0 : Int), 0) promoBoard false false (some 6)).isPawnPromotion
      = true ∧
    getCell (makeMove promoState
        (Move.mk' ((1 : Int), 0) ((0 : Int), 0) promoBoard false false (some 6))).board
      0 0 = 16 := by decide

/-- C3 amended: for a promotion move (not en passant, not castle), makeMove
writes `color*10 + promotionPieceOf` onto the landing square: with no
promotionChoice attached (or choice 0) this is the mover's queen, but a
malformed truthy choice p is written unvalidated as `color*10 + p`. -/
theorem makeMove_promotion_writes (gs : GameState) (m : Move) (hw : Wf gs.board)
    (hber : 0 ≤ m.endRow ∧ m.endRow < 8) (hbec : 0 ≤ m.endCol ∧ m.endCol < 8)
    (hpromo : m.isPawnPromotion = true) (hcf : m.isCastleMove = false)
    (hep : m.isEnPassantMove = false) :
    getCell (makeMove gs m).board m.endRow m.endCol =
      (if m.pieceMoved = 11 then 10 else 20) + promotionPieceOf m ∧
    (m.promotionChoice = none →
      getCell (makeMove gs m).board m.endRow m.endCol =
        (if m.pieceMoved = 11 then 10 else 20) + 5) := by
  have hmain : getCell (makeMove gs m).board m.endRow m.endCol =
      (if m.pieceMoved = 11 then 10 else 20) + promotionPieceOf m := by
    show getCell (makeBoard gs.board m) m.endRow m.endCol = _
    unfold makeBoard
    simp only [hpromo, hcf, hep, if_true, Bool.false_eq_true, if_false]
    exact getCell_setCell_same _ _ _ _
      (Wf_setCell _ _ _ _ (Wf_setCell _ _ _ _ hw)) hber hbec
  refine ⟨hmain, fun hnone => ?_⟩
  rw [hmain]
  simp [promotionPieceOf, hnone]

/-- Witness for the amended C3: promoting with no attached choice yields a
white queen (15) on the promotion square. -/
theorem makeMove_promotion_writes_witness :
    (Move.mk' ((1 : Int), 0) ((0 : Int), 0) promoBoard false false none).isPawnPromotion
      = true ∧
    getCell (makeMove promoState
        (Move.mk' ((1 : Int), 0) ((0 : Int), 0) promoBoard false false none)).board
      0 0 = 15 := by
  refine ⟨by decide, ?_⟩
  have h := (makeMove_promotion_writes promoState
      (Move.mk' ((1 : Int), 0) ((0 : Int), 0) promoBoard false false none)
      (by decide) (by decide) (by decide) (by decide) (by decide) (by decide)).2 rfl
  have e1 : (Move.mk' ((1 : Int), 0) ((0 : Int), 0) promoBoard false false none).endRow
      = 0 := rfl
  have e2 : (Move.mk' ((1 : Int), 0) ((0 : Int), 0) promoBoard false false none).endCol
      = 0 := rfl
  rw [e1, e2] at h
  rw [h]
  decide

/-! ## C4: the transposition-cache key ignores the side to move -/

/-- Counterexample to C4 as stated: two positions with the same board but
opposite sides to move produce the same transposition key, and a single
stored entry answers the probe for both of them. -/
theorem transpositionKey_shared_counterexample :
    transpositionKey initGameState = transpositionKey (flipTurn initGameState) ∧
    initGameState.whiteToMove ≠ (flipTurn initGameState).whiteToMove ∧
    ttProbe [(initBoard, 3, (42 : Int))] initGameState 2 = some 42 ∧
    ttProbe [(initBoard, 3, (42 : Int))] (flipTurn initGameState) 2 = some 42 := by
  decide

/-- C4 amended: the cache is keyed by the board layout alone, and a probe
returns the stored score exactly when an entry for the current board exists
whose stored depth is at least the remaining depth; any two states with the
same board — whatever their sides to move — share the same key. -/
theorem ttProbe_spec {α : Type} (table : List (Board × Int × α)) (gs : GameState)
    (depth : Int) (s : α) :
    (ttProbe table gs depth = some s ↔
      ∃ d, ttFind table (transpositionKey gs) = some (d, s) ∧ depth ≤ d) ∧
    (∀ gs2 : GameState, gs2.board = gs.board →
      transpositionKey gs2 = transpositionKey gs) := by
  constructor
  · unfold ttProbe
    cases hf : ttFind table (transpositionKey gs) with
    | none =>
      simp
    | some ds =>
      obtain ⟨d, s0⟩ := ds
      show (if depth ≤ d then some s0 else none) = some s ↔
        ∃ d2, (some (d, s0) : Option (Int × α)) = some (d2, s) ∧ depth ≤ d2
      by_cases hd : depth ≤ d
      · rw [if_pos hd]
        constructor
        · intro h
          exact ⟨d, by rw [Option.some.inj h], hd⟩
        · rintro ⟨d2, hds, -⟩
          simp only [Option.some.injEq, Prod.mk.injEq] at hds
          rw [hds.2]
      · rw [if_neg hd]
        constructor
        · intro h; cases h
        · rintro ⟨d2, hds, hle⟩
          simp only [Option.some.injEq, Prod.mk.injEq] at hds
          exact absurd (hds.1 ▸ hle) hd
  · intro gs2 h
    unfold transpositionKey
    exact h

/-! ## C2: insufficient material (code bug) -/

def kkBoard : Board :=
  [[ 0,  0,  0,  0, 26,  0,  0,  0],
   [ 0,  0,  0,  0,  0,  0,  0,  0],
   [ 0,  0,  0,  0,  0,  0,  0,  0],
   [ 0,  0,  0,  0,  0,  0,  0,  0],
   [ 0,  0,  0,  0,  0,  0,  0,  0],
   [ 0,  0,  0,  0,  0,  0,  0,  0],
   [ 0,  0,  0,  0,  0,  0,  0,  0],
   [ 0,  0,  0,  0, 16,  0,  0,  0]]

/-- King versus king: black king e8, white king e1, White to move. -/
def kkState : GameState :=
  { board := kkBoard, whiteToMove := true, moveLog := [],
    whiteKingLocation := (7, 4), blackKingLocation := (0, 4),
    checkMate := false, draw := false, enPassantPossible := none,
    currentCastlingRight := CastleRight.mk false false false false,
    castleRightsLog := [CastleRight.mk false false false false],
    enPassantPossibleLog := [none], simulation := false,
    positionCounts := [((kkBoard, true), 1)], fiftyMoveCounter := 0 }

/-- C2 (code bug): on bare kings with the black king earlier in row-major
order, the flattened piece list is [26, 16], the order-sensitive comparison
`pieces == [16, 26]` fails, insufficientMaterial returns False, and
getValidMoves leaves the draw flag unset even though legal moves exist. -/
theorem insufficientMaterial_kk_failure :
    flattenPieces kkState.board = [26, 16] ∧
    insufficientMaterial kkState = false ∧
    (getValidMoves kkState).1 ≠ [] ∧
    (getValidMoves kkState).2.draw = false := by decide

/-! ## C10: no pawn ever occupies its promotion rank -/

theorem list_getD_of_le {α : Type} (l : List α) (n : Nat) (d : α)
    (h : l.length ≤ n) : l.getD n d = d := by
  induction l generalizing n with
  | nil => simp [List.getD]
  | cons a t ih =>
    cases n with
    | zero => simp at h
    | succ k => simpa [List.getD] using ih k (by simpa using h)

theorem pyIdx_lt {y : Int} {j : Nat} (h : pyIdx y = some j) : j < 8 := by
  unfold pyIdx at h
  by_cases h1 : 0 ≤ y ∧ y < 8
  · rw [if_pos h1] at h
    have := Option.some.inj h
    omega
  · rw [if_neg h1] at h
    by_cases h2 : -8 ≤ y ∧ y < 0
    · rw [if_pos h2] at h
      have := Option.some.inj h
      omega
    · rw [if_neg h2] at h
      simp at h

theorem pyIdx_some_of_bounds {y : Int} {n : Nat} (hy : 0 ≤ y ∧ y < 8)
    (h : pyIdx y = some n) : y = n := by
  unfold pyIdx at h
  rw [if_pos hy] at h
  have := Option.some.inj h
  omega

theorem pyIdx_coe (j : Nat) (hj : j < 8) : pyIdx ((j : Nat) : Int) = some j := by
  unfold pyIdx
  rw [if_pos (by omega)]
  simp

theorem getCell_congr_row (b : Board) (r1 r2 c : Int) (h : pyIdx r1 = pyIdx r2) :
    getCell b r1 c = getCell b r2 c := by
  unfold getCell
  rw [h]

theorem getCell_congr_col (b : Board) (r c1 c2 : Int) (h : pyIdx c1 = pyIdx c2) :
    getCell b r c1 = getCell b r c2 := by
  unfold getCell
  rw [h]

/-- A read from an updated cell either sees the written value (at the same
Python index pair) or the untouched original value. -/
theorem getCell_setCell_cases (b : Board) (r c : Int) (v : Nat) (r2 c2 : Int) :
    (getCell (setCell b r c v) r2 c2 = v ∧ pyIdx r = pyIdx r2 ∧ pyIdx c = pyIdx c2) ∨
    getCell (setCell b r c v) r2 c2 = getCell b r2 c2 := by
  by_cases hsame : pyIdx r = pyIdx r2 ∧ pyIdx c = pyIdx c2
  · obtain ⟨h1, h2⟩ := hsame
    cases hr : pyIdx r with
    | none =>
      right
      unfold setCell
      rw [hr]
    | some i =>
      cases hc : pyIdx c with
      | none =>
        right
        unfold setCell
        rw [hr, hc]
      | some j =>
        have hr2 : pyIdx r2 = some i := h1.symm.trans hr
        have hc2 : pyIdx c2 = some j := h2.symm.trans hc
        by_cases hi : i < b.length
        · by_cases hj : j < (b.getD i []).length
          · left
            refine ⟨?_, hr.symm.trans h1, hc.symm.trans h2⟩
            unfold getCell setCell
            rw [hr, hc, hr2, hc2]
            simp only []
            rw [list_getD_set_self, if_pos hi, list_getD_set_self, if_pos hj]
          · right
            unfold getCell setCell
            rw [hr, hc, hr2, hc2]
            simp only []
            rw [list_getD_set_self, if_pos hi, list_getD_set_self, if_neg hj,
              list_getD_of_le _ _ _ (by omega)]
        · right
          unfold setCell
          rw [hr, hc]
          simp only []
          rw [list_set_of_le b i _ (by omega)]
  · exact Or.inr (getCell_setCell_ne b r c r2 c2 v (not_and_or.mp hsame))

/-- C10's invariant: no white pawn (11) on row 0, no black pawn (21) on
row 7. -/
def noPawnOnBackRank (b : Board) : Prop :=
  ∀ j : Fin 8, getCell b 0 ((j : Nat) : Int) ≠ 11 ∧ getCell b 7 ((j : Nat) : Int) ≠ 21

instance (b : Board) : Decidable (noPawnOnBackRank b) := by
  unfold noPawnOnBackRank
  infer_instance

theorem noPawnOnBackRank_row0 (b : Board) (hb : noPawnOnBackRank b) (y : Int) :
    getCell b 0 y ≠ 11 := by
  cases hy : pyIdx y with
  | none =>
    unfold getCell
    rw [hy]
    show (0 : Nat) ≠ 11
    decide
  | some j =>
    have hj := pyIdx_lt hy
    rw [getCell_congr_col b 0 y ((j : Nat) : Int) (by rw [hy, pyIdx_coe j hj])]
    exact (hb ⟨j, hj⟩).1

theorem noPawnOnBackRank_row7 (b : Board) (hb : noPawnOnBackRank b) (y : Int) :
    getCell b 7 y ≠ 21 := by
  cases hy : pyIdx y with
  | none =>
    unfold getCell
    rw [hy]
    show (0 : Nat) ≠ 21
    decide
  | some j =>
    have hj := pyIdx_lt hy
    rw [getCell_congr_col b 7 y ((j : Nat) : Int) (by rw [hy, pyIdx_coe j hj])]
    exact (hb ⟨j, hj⟩).2

theorem noPawnOnBackRank_setCell (b : Board) (r c : Int) (v : Nat)
    (hb : noPawnOnBackRank b)
    (h0 : pyIdx r = some 0 → v ≠ 11) (h7 : pyIdx r = some 7 → v ≠ 21) :
    noPawnOnBackRank (setCell b r c v) := by
  intro j
  constructor
  · rcases getCell_setCell_cases b r c v 0 ((j : Nat) : Int) with ⟨hv, hrr, -⟩ | h
    · rw [hv]
      apply h0
      rw [hrr]
      decide
    · rw [h]
      exact (hb j).1
  · rcases getCell_setCell_cases b r c v 7 ((j : Nat) : Int) with ⟨hv, hrr, -⟩ | h
    · rw [hv]
      apply h7
      rw [hrr]
      decide
    · rw [h]
      exact (hb j).2

/-- The board writes of makeMove preserve the invariant for any move whose
promotion flag is the constructor's formula and whose promotion choice is
the generator's default None. -/
theorem makeBoard_no_pawn_on_back_rank (b : Board) (m : Move)
    (hb : noPawnOnBackRank b)
    (hber : 0 ≤ m.endRow ∧ m.endRow < 8)
    (hpromoF : m.isPawnPromotion =
      ((m.pieceMoved == 11 && m.endRow == 0) || (m.pieceMoved == 21 && m.endRow == 7)))
    (hchoice : m.promotionChoice = none) :
    noPawnOnBackRank (makeBoard b m) := by
  have hpp : promotionPieceOf m = 5 := by simp [promotionPieceOf, hchoice]
  have h1 : noPawnOnBackRank (setCell b m.startRow m.startCol 0) :=
    noPawnOnBackRank_setCell _ _ _ _ hb (fun _ => by decide) (fun _ => by decide)
  unfold makeBoard
  -- the end-square write, with the promotion overwrite collapsed onto it
  have h3 : noPawnOnBackRank
      (if m.isPawnPromotion then
        setCell (setCell (setCell b m.startRow m.startCol 0) m.endRow m.endCol m.pieceMoved)
          m.endRow m.endCol ((if m.pieceMoved = 11 then 10 else 20) + promotionPieceOf m)
      else setCell (setCell b m.startRow m.startCol 0) m.endRow m.endCol m.pieceMoved) := by
    cases hpf : m.isPawnPromotion with
    | true =>
      rw [if_pos rfl, setCell_setCell_same, hpp]
      refine noPawnOnBackRank_setCell _ _ _ _ h1 (fun _ => ?_) (fun _ => ?_)
      · by_cases h11 : m.pieceMoved = 11 <;> simp [h11]
      · by_cases h11 : m.pieceMoved = 11 <;> simp [h11]
    | false =>
      rw [if_neg (by simp)]
      rw [hpf] at hpromoF
      have hflag := hpromoF.symm
      simp only [Bool.or_eq_false_iff, Bool.and_eq_false_iff, beq_eq_false_iff_ne,
        ne_eq] at hflag
      refine noPawnOnBackRank_setCell _ _ _ _ h1 (fun hsome => ?_) (fun hsome => ?_)
      · have her : m.endRow = 0 := by
          have := pyIdx_some_of_bounds hber hsome
          omega
        rcases hflag.1 with h | h
        · exact h
        · exact absurd her h
      · have her : m.endRow = 7 := by
          have := pyIdx_some_of_bounds hber hsome
          omega
        rcases hflag.2 with h | h
        · exact h
        · exact absurd her h
  -- the en-passant removal writes an empty square
  have h4 : noPawnOnBackRank
      (if m.isEnPassantMove then
        setCell (if m.isPawnPromotion then
          setCell (setCell (setCell b m.startRow m.startCol 0) m.endRow m.endCol m.pieceMoved)
            m.endRow m.endCol ((if m.pieceMoved = 11 then 10 else 20) + promotionPieceOf m)
        else setCell (setCell b m.startRow m.startCol 0) m.endRow m.endCol m.pieceMoved)
          m.startRow m.endCol 0
      else (if m.isPawnPromotion then
        setCell (setCell (setCell b m.startRow m.startCol 0) m.endRow m.endCol m.pieceMoved)
          m.endRow m.endCol ((if m.pieceMoved = 11 then 10 else 20) + promotionPieceOf m)
      else setCell (setCell b m.startRow m.startCol 0) m.endRow m.endCol m.pieceMoved)) := by
    cases m.isEnPassantMove with
    | true =>
      rw [if_pos rfl]
      exact noPawnOnBackRank_setCell _ _ _ _ h3 (fun _ => by decide) (fun _ => by decide)
    | false => rw [if_neg (by simp)]; exact h3
  -- the castle rook writes move a value within the end row and write a zero
  cases m.isCastleMove with
  | false =>
    rw [if_neg (by simp)]
    exact h4
  | true =>
    rw [if_pos rfl]
    have hrel : ∀ y z : Int, noPawnOnBackRank
        (setCell (setCell (if m.isEnPassantMove then
          setCell (if m.isPawnPromotion then
            setCell (setCell (setCell b m.startRow m.startCol 0) m.endRow m.endCol m.pieceMoved)
              m.endRow m.endCol ((if m.pieceMoved = 11 then 10 else 20) + promotionPieceOf m)
          else setCell (setCell b m.startRow m.startCol 0) m.endRow m.endCol m.pieceMoved)
            m.startRow m.endCol 0
        else (if m.isPawnPromotion then
          setCell (setCell (setCell b m.startRow m.startCol 0) m.endRow m.endCol m.pieceMoved)
            m.endRow m.endCol ((if m.pieceMoved = 11 then 10 else 20) + promotionPieceOf m)
        else setCell (setCell b m.startRow m.startCol 0) m.endRow m.endCol m.pieceMoved))
          m.endRow y (getCell (if m.isEnPassantMove then
          setCell (if m.isPawnPromotion then
            setCell (setCell (setCell b m.startRow m.startCol 0) m.endRow m.endCol m.pieceMoved)
              m.endRow m.endCol ((if m.pieceMoved = 11 then 10 else 20) + promotionPieceOf m)
          else setCell (setCell b m.startRow m.startCol 0) m.endRow m.endCol m.pieceMoved)
            m.startRow m.endCol 0
        else (if m.isPawnPromotion then
          setCell (setCell (setCell b m.startRow m.startCol 0) m.endRow m.endCol m.pieceMoved)
            m.endRow m.endCol ((if m.pieceMoved = 11 then 10 else 20) + promotionPieceOf m)
        else setCell (setCell b m.startRow m.startCol 0) m.endRow m.endCol m.pieceMoved))
            m.endRow z)) m.endRow z 0) := by
      intro y z
      have hz0 : pyIdx (0 : Int) = some 0 := by decide
      have hz7 : pyIdx (7 : Int) = some 7 := by decide
      refine noPawnOnBackRank_setCell _ _ _ _
        (noPawnOnBackRank_setCell _ _ _ _ h4 (fun hsome => ?_) (fun hsome => ?_))
        (fun _ => by decide) (fun _ => by decide)
      · rw [getCell_congr_row _ _ 0 _ (hsome.trans hz0.symm)]
        exact noPawnOnBackRank_row0 _ h4 z
      · rw [getCell_congr_row _ _ 7 _ (hsome.trans hz7.symm)]
        exact noPawnOnBackRank_row7 _ h4 z
    by_cases hdir : m.endCol - m.startCol = 2
    · rw [if_pos hdir]
      exact hrel (m.endCol - 1) (m.endCol + 1)
    · rw [if_neg hdir]
      exact hrel (m.endCol + 1) (m.endCol - 2)

/-- C10: makeMove with a Move built by the generator from the current board
(the Move constructor with the default promotionChoice of None) preserves the
invariant that no white pawn sits on row 0 and no black pawn on row 7: a pawn
reaching the back rank is flagged isPawnPromotion by the constructor and the
landing square is overwritten with the mover's queen. -/
theorem makeMove_no_pawn_on_back_rank (gs : GameState) (m : Move)
    (hb : noPawnOnBackRank gs.board)
    (hber : 0 ≤ m.endRow ∧ m.endRow < 8)
    (hgen : ∃ s e : Int × Int, ∃ ep cst : Bool, m = Move.mk' s e gs.board ep cst none) :
    noPawnOnBackRank (makeMove gs m).board := by
  obtain ⟨s, e, ep, cst, hm⟩ := hgen
  have hpromoF : m.isPawnPromotion =
      ((m.pieceMoved == 11 && m.endRow == 0) || (m.pieceMoved == 21 && m.endRow == 7)) := by
    rw [hm]; rfl
  have hchoice : m.promotionChoice = none := by rw [hm]; rfl
  show noPawnOnBackRank (makeBoard gs.board m)
  exact makeBoard_no_pawn_on_back_rank gs.board m hb hber hpromoF hchoice

/-- Witness for C10: the initial position satisfies the invariant and e2-e4
preserves it. -/
theorem makeMove_no_pawn_on_back_rank_witness :
    noPawnOnBackRank initGameState.board ∧
    noPawnOnBackRank (makeMove initGameState mE2E4).board :=
  ⟨by decide,
   makeMove_no_pawn_on_back_rank initGameState mE2E4 (by decide) (by decide)
     ⟨(6, 4), (4, 4), false, false, rfl⟩⟩

end ChessByDQK
